import Mathlib

/-!
# Verification of `analyze.py` (`HiddenFolderCrawler`)

Shallow embedding of the concurrent directory-probing crawler in `analyze.py`.

The embedding has two layers:

* Pure glue code (`check_url`, base-URL normalisation, wordlist expansion and
  loading, result saving, the `main` control flow) is translated into pure
  Lean functions.  External effects (the HTTP exchange performed by
  `urllib.request.urlopen`, file reads) are passed in as explicit outcome
  values or oracles.

* The concurrent crawl (worker threads, `queue.Queue`, the dedup set, the
  found list, `queue.join()` and the `None`-sentinel shutdown) is modelled as
  a small-step transition system `CrawlStep` over `CrawlState`.  Each step is
  one atomic action of one thread: a `queue.get()`, the lock-guarded
  check-and-insert on `checked_urls` (a single critical section in the
  source), the probe together with the lock-guarded recording, the
  `time.sleep` + `task_done`, the coordinator passing `queue.join()` (enabled
  exactly when the unfinished-task counter of the queue is zero), each single
  `queue.put(None)` of the sentinel loop, and the final joining of the worker
  threads.  The HTTP exchange is an oracle `probe : String → UrlOpenResult`
  giving, for each resolved address, the outcome of the underlying
  `urllib` call; the worker's line 62 is then `check_url (probe u)`, using
  this file's embedding of `check_url`.  When that call returns, the worker
  records (on 200) and sleeps; when it raises an uncaught exception (the
  malformed-URL `ValueError` of the C4 analysis), the worker thread dies
  before ever calling `task_done` — state `crashed` — and is never
  scheduled again, so the queue's unfinished-task count can never reach
  zero and `queue.join()` hangs.  `urljoin base_url` is an oracle
  `resolve : String → String`; neither oracle touches shared state,
  matching the source where no lock is held across the network call or the
  sleep.
-/

set_option maxHeartbeats 1000000

/-! ## Probe function (`check_url`, analyze.py lines 33-42) -/

/-- Outcome of the `urllib.request.Request` construction plus
`urllib.request.urlopen` call inside `check_url`'s `try` block:
either a response object was obtained (its `getcode()` is the payload), or
one of the exception classes Python can raise there was raised.
`urllib.error.HTTPError` carries the numeric status code of a completed
exchange; `urllib.error.URLError` covers connection failures, DNS failures
and timeouts; `ValueError` is raised by `urllib` itself for a malformed URL
(e.g. `unknown url type` when the URL has no scheme, or
`http.client.InvalidURL`, a `ValueError` subclass, for an invalid port). -/
inductive UrlOpenResult
  | response (code : Nat)
  | httpError (code : Nat)
  | urlError
  | valueError
deriving DecidableEq

/-- A Python exception escaping `check_url`. -/
inductive PyExc
  | valueError
deriving DecidableEq

/-- `HiddenFolderCrawler.check_url` (lines 33-42): the `try` block returns
`response.getcode()`; `except urllib.error.HTTPError as e: return e.code`;
`except urllib.error.URLError: return None`.  No other exception class is
caught, so a `ValueError` propagates out of the method. -/
def check_url : UrlOpenResult → Except PyExc (Option Nat)
  | UrlOpenResult.response c => Except.ok (some c)
  | UrlOpenResult.httpError c => Except.ok (some c)
  | UrlOpenResult.urlError => Except.ok none
  | UrlOpenResult.valueError => Except.error PyExc.valueError

/-! ## Base-URL normalisation (analyze.py line 13) -/

/-- Character-list version of Python `str.startswith`. -/
def beginsWithChars : List Char → List Char → Bool
  | [], _ => true
  | _ :: _, [] => false
  | a :: as, b :: bs => a = b && beginsWithChars as bs

/-- Python `s.startswith(pat)`. -/
def pyStartsWith (s pat : String) : Bool := beginsWithChars pat.data s.data

/-- Line 13: `base_url if base_url.startswith('http') else f'http://{base_url}'`.
Note the test is `startswith('http')`, not a full scheme check. -/
def normalizeBaseUrl (u : String) : String :=
  if pyStartsWith u "http" then u else "http://" ++ u

/-! ## Wordlists (analyze.py lines 23-31, 94-96, 153-158) -/

/-- `HiddenFolderCrawler.default_wordlist` (lines 23-31). -/
def default_wordlist : List String :=
  ["admin", "backup", "bin", "config", "data", "database", "doc", "docs",
   "download", "ftp", "files", "images", "img", "include", "inc", "js",
   "lib", "log", "logs", "media", "old", "secret", "secure", "src",
   "static", "temp", "test", "tmp", "upload", "uploads", "var", "web"]

/-- Line 14: `self.wordlist = wordlist or self.default_wordlist()`.
Python `or` yields the right operand when the left is falsy, and both `None`
and the empty list are falsy. -/
def initWordlist : Option (List String) → List String
  | none => default_wordlist
  | some l => if l.isEmpty then default_wordlist else l

/-- Lines 94-96: for each word the crawler enqueues the bare word and the
word with a trailing slash, in that order. -/
def expandWordlist : List String → List String
  | [] => []
  | w :: ws => w :: (w ++ "/") :: expandWordlist ws

/-- Whitespace characters removed by Python `str.strip()`. -/
def pySpace (c : Char) : Bool :=
  c = ' ' || c = '\t' || c = '\n' || c = '\r' || c = '\x0b' || c = '\x0c'

/-- Python `str.strip()`: remove leading and trailing whitespace. -/
def pyStrip (s : String) : String :=
  String.mk (((s.data.dropWhile pySpace).reverse.dropWhile pySpace).reverse)

/-- Line 157: `wordlist = [line.strip() for line in f if line.strip()]` —
each line is stripped and kept only if the stripped line is non-empty. -/
def processWordlistLines (lines : List String) : List String :=
  lines.filterMap (fun l => let s := pyStrip l; if s = "" then none else some s)

/-! ## Result saving and end-of-crawl summary (analyze.py lines 73-84, 114-124) -/

/-- `HiddenFolderCrawler.save_results` (lines 73-84): returns early when no
output file is configured; otherwise attempts to write the header line
followed by the found directories joined by newlines.  The payload is the
attempted file write `(path, contents)`; an `IOError` on the actual write is
reported and swallowed, which does not change what was attempted. -/
def save_results (output : Option String) (found : List String) : Option (String × String) :=
  match output with
  | none => none
  | some path => some (path, "Found directories:\n" ++ String.intercalate "\n" found)

/-- The summary stage of `crawl` (lines 114-124): only when `found_dirs` is
non-empty are the findings printed and `save_results` invoked; otherwise
`"[-] No directories found"` is printed and `save_results` is never called.
The boolean records whether `save_results` was invoked; the option is the
attempted file write. -/
def crawlSummary (found : List String) (output : Option String) :
    Bool × Option (String × String) :=
  if found.isEmpty then (false, none) else (true, save_results output found)

/-! ## `main` (analyze.py lines 126-172) -/

/-- How one run of `main` ends.
`usageExit code`: `len(sys.argv) == 1`, help printed, `sys.exit(code)`.
`wordlistReadExit code`: the wordlist file could not be read, the error was
printed and `sys.exit(code)` ran — no `HiddenFolderCrawler` was constructed,
so this happens before any probing.
`completed wl code`: the crawler was constructed with wordlist argument `wl`
and `crawl()` ran; `main` returns normally and the process exits with
`code`. -/
inductive MainResult
  | usageExit (code : Nat)
  | wordlistReadExit (code : Nat)
  | completed (wl : Option (List String)) (code : Nat)
deriving DecidableEq

/-- The control flow of `main` (lines 146-172).  `argvTail` is
`sys.argv[1:]` (so `len(sys.argv) == 1` iff it is empty), `wordlistArg` is
the parsed `args.wordlist`, and `readFile` is the file-system oracle giving
the lines of a file or an `IOError`.  Normal fall-through of `main` makes
the Python process exit with status 0. -/
def mainModel (argvTail : List String) (wordlistArg : Option String)
    (readFile : String → Except Unit (List String)) : MainResult :=
  if argvTail.isEmpty then MainResult.usageExit 1
  else
    match wordlistArg with
    | none => MainResult.completed none 0
    | some p =>
      match readFile p with
      | Except.error _ => MainResult.wordlistReadExit 1
      | Except.ok lines => MainResult.completed (some (processWordlistLines lines)) 0

/-! ## One worker-loop iteration (analyze.py lines 44-71) -/

/-- Observable actions of one worker-loop iteration, in program order. -/
inductive WAction
  | probeAct (u : String) (st : Option Nat)
  | record (u : String)
  | sleepDelay
  | taskDone
  | exitWorker
deriving DecidableEq

/-- One iteration of the `while True` worker body (lines 46-71) on a freshly
dequeued item (`none` is the sentinel).  `resolve` is
`urljoin(self.base_url, ·)` and `probe` is `self.check_url` (`none` =
unreachable).  Returns the updated `checked_urls`, the updated `found_dirs`,
and the ordered list of remaining observable actions of the iteration:
a duplicate is just `task_done` (no probe, no sleep); a new address is
probed, recorded when the status is exactly 200, then slept on, then
`task_done`. -/
def workerIteration (resolve : String → String) (probe : String → Option Nat)
    (checked found : List String) (item : Option String) :
    List String × List String × List WAction :=
  match item with
  | none => (checked, found, [WAction.taskDone, WAction.exitWorker])
  | some path =>
    let u := resolve path
    if u ∈ checked then (checked, found, [WAction.taskDone])
    else
      let st := probe u
      (u :: checked,
       (if st = some 200 then found ++ [u] else found),
       WAction.probeAct u st ::
         (if st = some 200 then [WAction.record u] else []) ++
           [WAction.sleepDelay, WAction.taskDone])

/-- The lock-guarded critical section of lines 55-59 as a single atomic
check-and-insert on the `checked_urls` set: returns `true` ("new", the
address was inserted) or `false` ("duplicate", the set is unchanged). -/
def checkAndMark (u : String) (checked : List String) : Bool × List String :=
  if u ∈ checked then (false, checked) else (true, u :: checked)

/-! ## The concurrent crawl as a transition system -/

/-- An entry of the `queue.Queue`: a candidate path string, or the `None`
sentinel. -/
inductive QItem
  | item (p : String)
  | sentinel
deriving DecidableEq

/-- Micro-state of one worker thread inside its loop:
`ready` = about to block in `queue.get()`;
`checking u` = dequeued a candidate resolving to `u`, before the lock-guarded
dedup section;
`probing u` = past the dedup section with a new address, before the network
call;
`sleeping u` = probe (and any recording/printing) finished, inside
`time.sleep(self.delay)`, `task_done` not yet called;
`crashed` = the `check_url` call at line 62 raised an uncaught exception
(a malformed-URL `ValueError`), killing the worker thread before
`task_done` was called — the worker is never scheduled again;
`exited` = consumed a sentinel, called `task_done` and broke out of the
loop. -/
inductive WState
  | ready
  | checking (u : String)
  | probing (u : String)
  | sleeping (u : String)
  | crashed
  | exited
deriving DecidableEq

/-- Coordinator phase inside `crawl` (lines 105-112):
`joining` = blocked in `queue.join()`;
`posting k` = past the join, with `k` of the `max_threads` sentinel `put`s
still to perform;
`finished` = past `for t in threads: t.join()`. -/
inductive CPhase
  | joining
  | posting (k : Nat)
  | finished
deriving DecidableEq

/-- Global state of one crawl with pool size `N`.  `unfinished` is the
internal unfinished-task counter of `queue.Queue` (incremented by `put`,
decremented by `task_done`; `queue.join()` unblocks exactly when it is 0).
`probes` is a ghost trace of the addresses handed to the probe function, and
`consumed` a ghost per-worker count of consumed sentinels. -/
structure CrawlState (N : Nat) where
  queue : List QItem
  unfinished : Nat
  ws : Fin N → WState
  coord : CPhase
  checked : List String
  found : List String
  probes : List String
  consumed : Fin N → Nat

/-- State at the start of `crawl` after the seeding loop (lines 94-96): all
expanded candidates enqueued (each `put` bumped the task counter), all `N`
worker threads started and at the top of their loops, coordinator entering
`queue.join()`. -/
def initState (N : Nat) (wl : List String) : CrawlState N where
  queue := (expandWordlist wl).map QItem.item
  unfinished := (expandWordlist wl).length
  ws := fun _ => WState.ready
  coord := CPhase.joining
  checked := []
  found := []
  probes := []
  consumed := fun _ => 0

/-- One atomic step of the crawl, by any thread.  `probe u` is the outcome
of the `urllib` exchange for `u`, so the worker's line 62 computes
`check_url (probe u)`; `resolve` is `urljoin(self.base_url, ·)`.  A probe
whose `check_url` returns yields `probeOk` (record on 200, then sleep); a
probe whose `check_url` raises yields `probeRaise`: the thread dies with
the exception before `task_done`, leaving the task counter permanently
positive. -/
inductive CrawlStep (N : Nat) (probe : String → UrlOpenResult) (resolve : String → String) :
    CrawlState N → CrawlState N → Prop
  | dequeueItem (s : CrawlState N) (i : Fin N) (p : String) (rest : List QItem)
      (hw : s.ws i = WState.ready) (hq : s.queue = QItem.item p :: rest) :
      CrawlStep N probe resolve s
        { s with queue := rest,
                 ws := Function.update s.ws i (WState.checking (resolve p)) }
  | dequeueSentinel (s : CrawlState N) (i : Fin N) (rest : List QItem)
      (hw : s.ws i = WState.ready) (hq : s.queue = QItem.sentinel :: rest) :
      CrawlStep N probe resolve s
        { s with queue := rest, unfinished := s.unfinished - 1,
                 ws := Function.update s.ws i WState.exited,
                 consumed := Function.update s.consumed i (s.consumed i + 1) }
  | dupSkip (s : CrawlState N) (i : Fin N) (u : String)
      (hw : s.ws i = WState.checking u) (hc : u ∈ s.checked) :
      CrawlStep N probe resolve s
        { s with ws := Function.update s.ws i WState.ready,
                 unfinished := s.unfinished - 1 }
  | markNew (s : CrawlState N) (i : Fin N) (u : String)
      (hw : s.ws i = WState.checking u) (hc : u ∉ s.checked) :
      CrawlStep N probe resolve s
        { s with ws := Function.update s.ws i (WState.probing u),
                 checked := u :: s.checked }
  | probeOk (s : CrawlState N) (i : Fin N) (u : String) (st : Option Nat)
      (hw : s.ws i = WState.probing u)
      (hok : check_url (probe u) = Except.ok st) :
      CrawlStep N probe resolve s
        { s with ws := Function.update s.ws i (WState.sleeping u),
                 found := if st = some 200 then s.found ++ [u] else s.found,
                 probes := s.probes ++ [u] }
  | probeRaise (s : CrawlState N) (i : Fin N) (u : String) (e : PyExc)
      (hw : s.ws i = WState.probing u)
      (herr : check_url (probe u) = Except.error e) :
      CrawlStep N probe resolve s
        { s with ws := Function.update s.ws i WState.crashed,
                 probes := s.probes ++ [u] }
  | sleepDone (s : CrawlState N) (i : Fin N) (u : String)
      (hw : s.ws i = WState.sleeping u) :
      CrawlStep N probe resolve s
        { s with ws := Function.update s.ws i WState.ready,
                 unfinished := s.unfinished - 1 }
  | joinDone (s : CrawlState N)
      (hc : s.coord = CPhase.joining) (hu : s.unfinished = 0) :
      CrawlStep N probe resolve s { s with coord := CPhase.posting N }
  | postMarker (s : CrawlState N) (k : Nat)
      (hc : s.coord = CPhase.posting (k + 1)) :
      CrawlStep N probe resolve s
        { s with queue := s.queue ++ [QItem.sentinel],
                 unfinished := s.unfinished + 1,
                 coord := CPhase.posting k }
  | finish (s : CrawlState N)
      (hc : s.coord = CPhase.posting 0) (hall : ∀ i, s.ws i = WState.exited) :
      CrawlStep N probe resolve s { s with coord := CPhase.finished }

/-- The states one crawl run can reach from its initial state. -/
def CrawlReachable (N : Nat) (probe : String → UrlOpenResult) (resolve : String → String)
    (wl : List String) (s : CrawlState N) : Prop :=
  Relation.ReflTransGen (CrawlStep N probe resolve) (initState N wl) s

/-- The state a one-worker crawl on wordlist `["admin"]` reaches when every
probe raises (e.g. a schemeless base URL such as `httpx`, which line 13
leaves unchanged, makes every resolved URL malformed): the worker dequeued
`admin`, inserted it in the ledger, called `check_url` and died on the
uncaught `ValueError` before `task_done`.  The second candidate is still
queued, the task counter is stuck at 2, and the coordinator is blocked in
`queue.join()` forever. -/
def hungState : CrawlState 1 where
  queue := [QItem.item ("admin" ++ "/")]
  unfinished := 2
  ws := Function.update (Function.update (Function.update
    (fun _ => WState.ready) ⟨0, Nat.one_pos⟩ (WState.checking "admin"))
    ⟨0, Nat.one_pos⟩ (WState.probing "admin")) ⟨0, Nat.one_pos⟩ WState.crashed
  coord := CPhase.joining
  checked := ["admin"]
  found := []
  probes := ["admin"]
  consumed := fun _ => 0

/-! ## Counting helpers over the model -/

/-- Number of real candidates in the queue. -/
def itemCount : List QItem → Nat
  | [] => 0
  | QItem.item _ :: q => itemCount q + 1
  | QItem.sentinel :: q => itemCount q

/-- Number of sentinels in the queue. -/
def sentCount : List QItem → Nat
  | [] => 0
  | QItem.item _ :: q => sentCount q
  | QItem.sentinel :: q => sentCount q + 1

/-- 1 when the worker holds a dequeued candidate whose `task_done` is still
pending. -/
def busyW : WState → Nat
  | WState.ready => 0
  | WState.exited => 0
  | _ => 1

/-- 1 when the worker has exited. -/
def exitedW : WState → Nat
  | WState.exited => 1
  | _ => 0

/-- Number of workers still processing a candidate. -/
def busySum {N : Nat} (w : Fin N → WState) : Nat := ∑ i, busyW (w i)

/-- Number of workers that have exited. -/
def exitedCount {N : Nat} (w : Fin N → WState) : Nat := ∑ i, exitedW (w i)

/-- Weight of a queue entry for the termination measure. -/
def qWeight : QItem → Nat
  | QItem.item _ => 5
  | QItem.sentinel => 2

/-- Total queue weight. -/
def qWeightSum : List QItem → Nat
  | [] => 0
  | x :: q => qWeight x + qWeightSum q

/-- Remaining steps of a worker's current iteration. -/
def wWeight : WState → Nat
  | WState.ready => 0
  | WState.checking _ => 4
  | WState.probing _ => 3
  | WState.sleeping _ => 2
  | WState.crashed => 0
  | WState.exited => 0

/-- Remaining coordinator weight. -/
def cWeight (N : Nat) : CPhase → Nat
  | CPhase.joining => 3 * N + 2
  | CPhase.posting k => 3 * k + 1
  | CPhase.finished => 0

/-- Total remaining worker weight. -/
def wSum {N : Nat} (f : Fin N → WState) : Nat := ∑ i, wWeight (f i)

/-- Termination measure: strictly decreases along every `CrawlStep`. -/
def crawlMeasure {N : Nat} (s : CrawlState N) : Nat :=
  qWeightSum s.queue + wSum s.ws + cWeight N s.coord

/-! ## List and sum lemmas -/

theorem itemCount_append (a b : List QItem) :
    itemCount (a ++ b) = itemCount a + itemCount b := by
  induction a with
  | nil => simp [itemCount]
  | cons x q ih => cases x <;> simp [itemCount, ih] <;> omega

theorem sentCount_append (a b : List QItem) :
    sentCount (a ++ b) = sentCount a + sentCount b := by
  induction a with
  | nil => simp [sentCount]
  | cons x q ih => cases x <;> simp [sentCount, ih] <;> omega

theorem qWeightSum_append (a b : List QItem) :
    qWeightSum (a ++ b) = qWeightSum a + qWeightSum b := by
  induction a with
  | nil => simp [qWeightSum]
  | cons x q ih => simp [qWeightSum, ih] ; omega

theorem itemCount_map_item (l : List String) :
    itemCount (l.map QItem.item) = l.length := by
  induction l with
  | nil => rfl
  | cons w ws ih => simp [itemCount, ih]

theorem sentCount_map_item (l : List String) :
    sentCount (l.map QItem.item) = 0 := by
  induction l with
  | nil => rfl
  | cons w ws ih => simp [sentCount, ih]

theorem sentCount_pos_of_mem {q : List QItem} (h : QItem.sentinel ∈ q) :
    1 ≤ sentCount q := by
  induction q with
  | nil => cases h
  | cons x rest ih =>
    cases x with
    | item p =>
      have : QItem.sentinel ∈ rest := by
        cases h with
        | tail _ h' => exact h'
      have := ih this
      simp [sentCount]
      omega
    | sentinel => simp [sentCount]

theorem expandWordlist_length (wl : List String) :
    (expandWordlist wl).length = 2 * wl.length := by
  induction wl with
  | nil => rfl
  | cons w ws ih => simp [expandWordlist, ih] ; omega

theorem expandWordlist_mem {wl : List String} {w : String} (h : w ∈ wl) :
    w ∈ expandWordlist wl ∧ (w ++ "/") ∈ expandWordlist wl := by
  induction wl with
  | nil => cases h
  | cons v vs ih =>
    cases h with
    | head => exact ⟨List.mem_cons_self _ _, List.mem_cons_of_mem _ (List.mem_cons_self _ _)⟩
    | tail _ h' =>
      obtain ⟨h1, h2⟩ := ih h'
      exact ⟨List.mem_cons_of_mem _ (List.mem_cons_of_mem _ h1),
        List.mem_cons_of_mem _ (List.mem_cons_of_mem _ h2)⟩

theorem sum_wfun_update {N : Nat} (f : Fin N → WState) (w : WState → Nat)
    (i : Fin N) (v : WState) :
    (∑ j, w (Function.update f i v j)) + w (f i) = (∑ j, w (f j)) + w v := by
  have h1 : (∑ j, w (Function.update f i v j)) =
      ∑ j, Function.update (fun k => w (f k)) i (w v) j :=
    Finset.sum_congr rfl (fun j _ => Function.apply_update (fun _ x => w x) f i v j)
  rw [h1, Finset.sum_update_of_mem (Finset.mem_univ i),
    Finset.sum_eq_sum_diff_singleton_add (Finset.mem_univ i) (fun k => w (f k))]
  ring

theorem busySum_update {N : Nat} (f : Fin N → WState) (i : Fin N) (v : WState) :
    busySum (Function.update f i v) + busyW (f i) = busySum f + busyW v :=
  sum_wfun_update f busyW i v

theorem exitedCount_update {N : Nat} (f : Fin N → WState) (i : Fin N) (v : WState) :
    exitedCount (Function.update f i v) + exitedW (f i) = exitedCount f + exitedW v :=
  sum_wfun_update f exitedW i v

theorem wSum_update {N : Nat} (f : Fin N → WState) (i : Fin N) (v : WState) :
    wSum (Function.update f i v) + wWeight (f i) = wSum f + wWeight v :=
  sum_wfun_update f wWeight i v

theorem wterm_le_sum {N : Nat} (f : Fin N → WState) (w : WState → Nat) (i : Fin N) :
    w (f i) ≤ ∑ j, w (f j) := by
  have h : ∀ g : Fin N → Nat, g i ≤ ∑ j, g j := by
    intro g
    exact Finset.single_le_sum (fun j _ => Nat.zero_le _) (Finset.mem_univ i)
  exact h (fun j => w (f j))

theorem exitedW_le_exitedCount {N : Nat} (f : Fin N → WState) (i : Fin N) :
    exitedW (f i) ≤ exitedCount f :=
  wterm_le_sum f exitedW i

theorem exitedCount_of_all {N : Nat} (f : Fin N → WState)
    (h : ∀ i, f i = WState.exited) : exitedCount f = N := by
  unfold exitedCount
  have : ∀ j ∈ Finset.univ, exitedW (f j) = 1 := fun j _ => by rw [h j] ; rfl
  rw [Finset.sum_congr rfl this]
  simp

theorem all_exited_of_exitedCount {N : Nat} (f : Fin N → WState)
    (h : exitedCount f = N) (i : Fin N) : f i = WState.exited := by
  by_contra hne
  have h0 : exitedW (f i) = 0 := by
    cases hfi : f i <;> simp [exitedW] <;> exact hne hfi
  have hsplit : exitedCount f = (∑ j ∈ Finset.univ \ {i}, exitedW (f j)) + exitedW (f i) :=
    Finset.sum_eq_sum_diff_singleton_add (Finset.mem_univ i) _
  have hle : (∑ j ∈ Finset.univ \ {i}, exitedW (f j)) ≤ (Finset.univ \ {i}).card • 1 :=
    Finset.sum_le_card_nsmul _ _ 1 (fun j _ => by cases f j <;> simp [exitedW])
  have hcard : (Finset.univ \ {i} : Finset (Fin N)).card = N - 1 := by
    rw [Finset.card_sdiff (Finset.subset_univ _)]
    simp
  have hN : 0 < N := i.pos
  rw [hcard, smul_eq_mul, mul_one] at hle
  omega

/-! ## The crawl invariant -/

/-- Inductive invariant of the crawl transition system.  `count` is the
meaning of the queue's unfinished-task counter; the `join`/`post`/`fin`
fields pin down the shutdown protocol; the `checked`/`probes`/`probing`
fields express the dedup guarantees; `foundOk` expresses the 200-only rule
for `found_dirs`. -/
structure CrawlInv (N : Nat) (probe : String → UrlOpenResult) (s : CrawlState N) : Prop where
  count : s.unfinished = itemCount s.queue + sentCount s.queue + busySum s.ws
  joinSent : s.coord = CPhase.joining → sentCount s.queue = 0
  joinExit : s.coord = CPhase.joining → exitedCount s.ws = 0
  postItems : s.coord ≠ CPhase.joining → itemCount s.queue = 0
  postBusy : s.coord ≠ CPhase.joining → busySum s.ws = 0
  postCount : ∀ k, s.coord = CPhase.posting k → sentCount s.queue + exitedCount s.ws + k = N
  finCount : s.coord = CPhase.finished → sentCount s.queue + exitedCount s.ws = N
  consumedEq : ∀ i, s.consumed i = exitedW (s.ws i)
  finAll : s.coord = CPhase.finished → ∀ i, s.ws i = WState.exited
  checkedNodup : s.checked.Nodup
  probesNodup : s.probes.Nodup
  probesChecked : ∀ u, u ∈ s.probes → u ∈ s.checked
  probingInv : ∀ i u, s.ws i = WState.probing u →
    u ∈ s.checked ∧ u ∉ s.probes ∧ ∀ j, j ≠ i → s.ws j ≠ WState.probing u
  foundOk : ∀ u, u ∈ s.found → check_url (probe u) = Except.ok (some 200)

theorem crawlInv_init (N : Nat) (probe : String → UrlOpenResult) (wl : List String) :
    CrawlInv N probe (initState N wl) := by
  refine ⟨?_, ?_, ?_, ?_, ?_, ?_, ?_, ?_, ?_, ?_, ?_, ?_, ?_, ?_⟩
  · simp [initState, itemCount_map_item, sentCount_map_item, busySum, busyW]
  · intro _ ; simp [initState, sentCount_map_item]
  · intro _ ; simp [initState, exitedCount, exitedW]
  · intro h ; exact absurd rfl h
  · intro h ; exact absurd rfl h
  · intro k hk ; exact absurd hk (by simp [initState])
  · intro hk ; exact absurd hk (by simp [initState])
  · intro i ; rfl
  · intro hk ; exact absurd hk (by simp [initState])
  · exact List.nodup_nil
  · exact List.nodup_nil
  · intro u hu ; cases hu
  · intro i u h ; cases h
  · intro u hu ; cases hu

theorem crawlInv_step {N : Nat} {probe : String → UrlOpenResult} {resolve : String → String}
    {s t : CrawlState N} (hinv : CrawlInv N probe s)
    (hst : CrawlStep N probe resolve s t) : CrawlInv N probe t := by
  obtain ⟨hcount, hjs, hje, hpi, hpb, hpc, hfc, hcons, hfin, hcn, hpn, hpch, hpr, hfo⟩ := hinv
  cases hst with
  | dequeueItem i p rest hw hq =>
    have hj : s.coord = CPhase.joining := by
      by_contra hne
      have h0 := hpi hne
      rw [hq] at h0
      simp [itemCount] at h0
    have hb := busySum_update s.ws i (WState.checking (resolve p))
    rw [hw] at hb
    simp [busyW] at hb
    have he := exitedCount_update s.ws i (WState.checking (resolve p))
    rw [hw] at he
    simp [exitedW] at he
    rw [hq] at hcount
    simp [itemCount, sentCount] at hcount
    refine ⟨?_, ?_, ?_, ?_, ?_, ?_, ?_, ?_, ?_, ?_, ?_, ?_, ?_, ?_⟩ <;> dsimp only
    · omega
    · intro h
      have h0 := hjs h
      rw [hq] at h0
      simpa [sentCount] using h0
    · intro h
      rw [he]
      exact hje h
    · intro h
      exact absurd hj h
    · intro h
      exact absurd hj h
    · intro k hk
      rw [hj] at hk
      simp at hk
    · intro hk
      rw [hj] at hk
      simp at hk
    · intro j
      by_cases hji : j = i
      · subst hji
        rw [Function.update_same, hcons j, hw]
        rfl
      · rw [Function.update_noteq hji]
        exact hcons j
    · intro hk
      rw [hj] at hk
      simp at hk
    · exact hcn
    · exact hpn
    · exact hpch
    · intro j u hju
      by_cases hji : j = i
      · subst hji
        rw [Function.update_same] at hju
        simp at hju
      · rw [Function.update_noteq hji] at hju
        obtain ⟨h1, h2, h3⟩ := hpr j u hju
        refine ⟨h1, h2, ?_⟩
        intro k hkj
        by_cases hki : k = i
        · subst hki
          rw [Function.update_same]
          simp
        · rw [Function.update_noteq hki]
          exact h3 k hkj
    · exact hfo
  | dequeueSentinel i rest hw hq =>
    have hnj : s.coord ≠ CPhase.joining := by
      intro hj
      have h0 := hjs hj
      rw [hq] at h0
      simp [sentCount] at h0
    have hb := busySum_update s.ws i WState.exited
    rw [hw] at hb
    simp [busyW] at hb
    have he := exitedCount_update s.ws i WState.exited
    rw [hw] at he
    simp [exitedW] at he
    rw [hq] at hcount
    simp [itemCount, sentCount] at hcount
    refine ⟨?_, ?_, ?_, ?_, ?_, ?_, ?_, ?_, ?_, ?_, ?_, ?_, ?_, ?_⟩ <;> dsimp only
    · omega
    · intro h
      exact absurd h hnj
    · intro h
      exact absurd h hnj
    · intro _
      have h0 := hpi hnj
      rw [hq] at h0
      simpa [itemCount] using h0
    · intro _
      rw [hb]
      exact hpb hnj
    · intro k hk
      have h0 := hpc k hk
      rw [hq] at h0
      simp [sentCount] at h0
      omega
    · intro hk
      have h0 := hfc hk
      rw [hq] at h0
      simp [sentCount] at h0
      omega
    · intro j
      by_cases hji : j = i
      · subst hji
        rw [Function.update_same, Function.update_same, hcons j, hw]
        rfl
      · rw [Function.update_noteq hji, Function.update_noteq hji]
        exact hcons j
    · intro hk
      have h0 := hfin hk i
      rw [hw] at h0
      simp at h0
    · exact hcn
    · exact hpn
    · exact hpch
    · intro j u hju
      by_cases hji : j = i
      · subst hji
        rw [Function.update_same] at hju
        simp at hju
      · rw [Function.update_noteq hji] at hju
        obtain ⟨h1, h2, h3⟩ := hpr j u hju
        refine ⟨h1, h2, ?_⟩
        intro k hkj
        by_cases hki : k = i
        · subst hki
          rw [Function.update_same]
          simp
        · rw [Function.update_noteq hki]
          exact h3 k hkj
    · exact hfo
  | dupSkip i u hw hc =>
    have hbusy1 : 1 ≤ busySum s.ws := by
      have h0 := wterm_le_sum s.ws busyW i
      rw [hw] at h0
      simpa [busyW] using h0
    have hj : s.coord = CPhase.joining := by
      by_contra hne
      have h0 := hpb hne
      omega
    have hb := busySum_update s.ws i WState.ready
    rw [hw] at hb
    simp [busyW] at hb
    have he := exitedCount_update s.ws i WState.ready
    rw [hw] at he
    simp [exitedW] at he
    refine ⟨?_, ?_, ?_, ?_, ?_, ?_, ?_, ?_, ?_, ?_, ?_, ?_, ?_, ?_⟩ <;> dsimp only
    · omega
    · intro h
      exact hjs h
    · intro h
      rw [he]
      exact hje h
    · intro h
      exact absurd hj h
    · intro h
      exact absurd hj h
    · intro k hk
      rw [hj] at hk
      simp at hk
    · intro hk
      rw [hj] at hk
      simp at hk
    · intro j
      by_cases hji : j = i
      · subst hji
        rw [Function.update_same, hcons j, hw]
        rfl
      · rw [Function.update_noteq hji]
        exact hcons j
    · intro hk
      rw [hj] at hk
      simp at hk
    · exact hcn
    · exact hpn
    · exact hpch
    · intro j v hjv
      by_cases hji : j = i
      · subst hji
        rw [Function.update_same] at hjv
        simp at hjv
      · rw [Function.update_noteq hji] at hjv
        obtain ⟨h1, h2, h3⟩ := hpr j v hjv
        refine ⟨h1, h2, ?_⟩
        intro k hkj
        by_cases hki : k = i
        · subst hki
          rw [Function.update_same]
          simp
        · rw [Function.update_noteq hki]
          exact h3 k hkj
    · exact hfo
  | markNew i u hw hc =>
    have hbusy1 : 1 ≤ busySum s.ws := by
      have h0 := wterm_le_sum s.ws busyW i
      rw [hw] at h0
      simpa [busyW] using h0
    have hj : s.coord = CPhase.joining := by
      by_contra hne
      have h0 := hpb hne
      omega
    have hb := busySum_update s.ws i (WState.probing u)
    rw [hw] at hb
    simp [busyW] at hb
    have he := exitedCount_update s.ws i (WState.probing u)
    rw [hw] at he
    simp [exitedW] at he
    refine ⟨?_, ?_, ?_, ?_, ?_, ?_, ?_, ?_, ?_, ?_, ?_, ?_, ?_, ?_⟩ <;> dsimp only
    · omega
    · intro h
      exact hjs h
    · intro h
      rw [he]
      exact hje h
    · intro h
      exact absurd hj h
    · intro h
      exact absurd hj h
    · intro k hk
      rw [hj] at hk
      simp at hk
    · intro hk
      rw [hj] at hk
      simp at hk
    · intro j
      by_cases hji : j = i
      · subst hji
        rw [Function.update_same, hcons j, hw]
        rfl
      · rw [Function.update_noteq hji]
        exact hcons j
    · intro hk
      rw [hj] at hk
      simp at hk
    · exact List.nodup_cons.mpr ⟨hc, hcn⟩
    · exact hpn
    · intro v hv
      exact List.mem_cons_of_mem _ (hpch v hv)
    · intro j v hjv
      by_cases hji : j = i
      · subst hji
        rw [Function.update_same] at hjv
        injection hjv with huv
        subst huv
        refine ⟨List.mem_cons_self _ _, ?_, ?_⟩
        · intro hu
          exact hc (hpch u hu)
        · intro k hk
          rw [Function.update_noteq hk]
          intro hcontra
          obtain ⟨h1, _, _⟩ := hpr k u hcontra
          exact hc h1
      · rw [Function.update_noteq hji] at hjv
        obtain ⟨h1, h2, h3⟩ := hpr j v hjv
        refine ⟨List.mem_cons_of_mem _ h1, h2, ?_⟩
        intro k hk
        by_cases hki : k = i
        · subst hki
          rw [Function.update_same]
          intro hcontra
          injection hcontra with huv
          rw [huv] at hc
          exact hc h1
        · rw [Function.update_noteq hki]
          exact h3 k hk
    · exact hfo
  | probeOk i u st hw hok =>
    have hbusy1 : 1 ≤ busySum s.ws := by
      have h0 := wterm_le_sum s.ws busyW i
      rw [hw] at h0
      simpa [busyW] using h0
    have hj : s.coord = CPhase.joining := by
      by_contra hne
      have h0 := hpb hne
      omega
    have hb := busySum_update s.ws i (WState.sleeping u)
    rw [hw] at hb
    simp [busyW] at hb
    have he := exitedCount_update s.ws i (WState.sleeping u)
    rw [hw] at he
    simp [exitedW] at he
    obtain ⟨huc, hup, huniq⟩ := hpr i u hw
    refine ⟨?_, ?_, ?_, ?_, ?_, ?_, ?_, ?_, ?_, ?_, ?_, ?_, ?_, ?_⟩ <;> dsimp only
    · omega
    · intro h
      exact hjs h
    · intro h
      rw [he]
      exact hje h
    · intro h
      exact absurd hj h
    · intro h
      exact absurd hj h
    · intro k hk
      rw [hj] at hk
      simp at hk
    · intro hk
      rw [hj] at hk
      simp at hk
    · intro j
      by_cases hji : j = i
      · subst hji
        rw [Function.update_same, hcons j, hw]
        rfl
      · rw [Function.update_noteq hji]
        exact hcons j
    · intro hk
      rw [hj] at hk
      simp at hk
    · exact hcn
    · have hdisj : s.probes.Disjoint [u] := by
        intro a ha hau
        rw [List.mem_singleton] at hau
        subst hau
        exact hup ha
      exact List.nodup_append.mpr ⟨hpn, List.nodup_singleton u, hdisj⟩
    · intro v hv
      rcases List.mem_append.mp hv with h | h
      · exact hpch v h
      · rw [List.mem_singleton] at h
        subst h
        exact huc
    · intro j v hjv
      by_cases hji : j = i
      · subst hji
        rw [Function.update_same] at hjv
        simp at hjv
      · rw [Function.update_noteq hji] at hjv
        obtain ⟨h1, h2, h3⟩ := hpr j v hjv
        refine ⟨h1, ?_, ?_⟩
        · intro hv
          rcases List.mem_append.mp hv with h | h
          · exact h2 h
          · rw [List.mem_singleton] at h
            subst h
            exact huniq j hji hjv
        · intro k hk
          by_cases hki : k = i
          · subst hki
            rw [Function.update_same]
            simp
          · rw [Function.update_noteq hki]
            exact h3 k hk
    · intro v hv
      by_cases h200 : st = some 200
      · rw [if_pos h200] at hv
        rcases List.mem_append.mp hv with h | h
        · exact hfo v h
        · rw [List.mem_singleton] at h
          subst h
          exact h200 ▸ hok
      · rw [if_neg h200] at hv
        exact hfo v hv
  | probeRaise i u e hw herr =>
    have hbusy1 : 1 ≤ busySum s.ws := by
      have h0 := wterm_le_sum s.ws busyW i
      rw [hw] at h0
      simpa [busyW] using h0
    have hj : s.coord = CPhase.joining := by
      by_contra hne
      have h0 := hpb hne
      omega
    have hb := busySum_update s.ws i WState.crashed
    rw [hw] at hb
    simp [busyW] at hb
    have he := exitedCount_update s.ws i WState.crashed
    rw [hw] at he
    simp [exitedW] at he
    obtain ⟨huc, hup, huniq⟩ := hpr i u hw
    refine ⟨?_, ?_, ?_, ?_, ?_, ?_, ?_, ?_, ?_, ?_, ?_, ?_, ?_, ?_⟩ <;> dsimp only
    · omega
    · intro h
      exact hjs h
    · intro h
      rw [he]
      exact hje h
    · intro h
      exact absurd hj h
    · intro h
      exact absurd hj h
    · intro k hk
      rw [hj] at hk
      simp at hk
    · intro hk
      rw [hj] at hk
      simp at hk
    · intro j
      by_cases hji : j = i
      · subst hji
        rw [Function.update_same, hcons j, hw]
        rfl
      · rw [Function.update_noteq hji]
        exact hcons j
    · intro hk
      rw [hj] at hk
      simp at hk
    · exact hcn
    · have hdisj : s.probes.Disjoint [u] := by
        intro a ha hau
        rw [List.mem_singleton] at hau
        subst hau
        exact hup ha
      exact List.nodup_append.mpr ⟨hpn, List.nodup_singleton u, hdisj⟩
    · intro v hv
      rcases List.mem_append.mp hv with h | h
      · exact hpch v h
      · rw [List.mem_singleton] at h
        subst h
        exact huc
    · intro j v hjv
      by_cases hji : j = i
      · subst hji
        rw [Function.update_same] at hjv
        simp at hjv
      · rw [Function.update_noteq hji] at hjv
        obtain ⟨h1, h2, h3⟩ := hpr j v hjv
        refine ⟨h1, ?_, ?_⟩
        · intro hv
          rcases List.mem_append.mp hv with h | h
          · exact h2 h
          · rw [List.mem_singleton] at h
            subst h
            exact huniq j hji hjv
        · intro k hk
          by_cases hki : k = i
          · subst hki
            rw [Function.update_same]
            simp
          · rw [Function.update_noteq hki]
            exact h3 k hk
    · exact hfo
  | sleepDone i u hw =>
    have hbusy1 : 1 ≤ busySum s.ws := by
      have h0 := wterm_le_sum s.ws busyW i
      rw [hw] at h0
      simpa [busyW] using h0
    have hj : s.coord = CPhase.joining := by
      by_contra hne
      have h0 := hpb hne
      omega
    have hb := busySum_update s.ws i WState.ready
    rw [hw] at hb
    simp [busyW] at hb
    have he := exitedCount_update s.ws i WState.ready
    rw [hw] at he
    simp [exitedW] at he
    refine ⟨?_, ?_, ?_, ?_, ?_, ?_, ?_, ?_, ?_, ?_, ?_, ?_, ?_, ?_⟩ <;> dsimp only
    · omega
    · intro h
      exact hjs h
    · intro h
      rw [he]
      exact hje h
    · intro h
      exact absurd hj h
    · intro h
      exact absurd hj h
    · intro k hk
      rw [hj] at hk
      simp at hk
    · intro hk
      rw [hj] at hk
      simp at hk
    · intro j
      by_cases hji : j = i
      · subst hji
        rw [Function.update_same, hcons j, hw]
        rfl
      · rw [Function.update_noteq hji]
        exact hcons j
    · intro hk
      rw [hj] at hk
      simp at hk
    · exact hcn
    · exact hpn
    · exact hpch
    · intro j v hjv
      by_cases hji : j = i
      · subst hji
        rw [Function.update_same] at hjv
        simp at hjv
      · rw [Function.update_noteq hji] at hjv
        obtain ⟨h1, h2, h3⟩ := hpr j v hjv
        refine ⟨h1, h2, ?_⟩
        intro k hkj
        by_cases hki : k = i
        · subst hki
          rw [Function.update_same]
          simp
        · rw [Function.update_noteq hki]
          exact h3 k hkj
    · exact hfo
  | joinDone hc hu =>
    refine ⟨?_, ?_, ?_, ?_, ?_, ?_, ?_, ?_, ?_, ?_, ?_, ?_, ?_, ?_⟩ <;> dsimp only
    · exact hcount
    · intro h
      simp at h
    · intro h
      simp at h
    · intro _
      have h0 := hjs hc
      rw [hu] at hcount
      omega
    · intro _
      rw [hu] at hcount
      omega
    · intro k hk
      simp at hk
      subst hk
      have h1 := hjs hc
      have h2 := hje hc
      omega
    · intro hk
      simp at hk
    · exact hcons
    · intro hk
      simp at hk
    · exact hcn
    · exact hpn
    · exact hpch
    · exact hpr
    · exact hfo
  | postMarker k hc =>
    have hnj : s.coord ≠ CPhase.joining := by
      rw [hc]
      simp
    refine ⟨?_, ?_, ?_, ?_, ?_, ?_, ?_, ?_, ?_, ?_, ?_, ?_, ?_, ?_⟩ <;> dsimp only
    · rw [itemCount_append, sentCount_append]
      simp [itemCount, sentCount]
      omega
    · intro h
      simp at h
    · intro h
      simp at h
    · intro _
      rw [itemCount_append]
      have h0 := hpi hnj
      simp [itemCount]
      omega
    · intro _
      exact hpb hnj
    · intro m hm
      simp at hm
      subst hm
      have h0 := hpc (k + 1) hc
      rw [sentCount_append]
      simp [sentCount]
      omega
    · intro hk
      simp at hk
    · exact hcons
    · intro hk
      simp at hk
    · exact hcn
    · exact hpn
    · exact hpch
    · exact hpr
    · exact hfo
  | finish hc hall =>
    have hnj : s.coord ≠ CPhase.joining := by
      rw [hc]
      simp
    refine ⟨?_, ?_, ?_, ?_, ?_, ?_, ?_, ?_, ?_, ?_, ?_, ?_, ?_, ?_⟩ <;> dsimp only
    · exact hcount
    · intro h
      simp at h
    · intro h
      simp at h
    · intro _
      exact hpi hnj
    · intro _
      exact hpb hnj
    · intro m hm
      simp at hm
    · intro _
      have h0 := hpc 0 hc
      omega
    · exact hcons
    · intro _
      exact hall
    · exact hcn
    · exact hpn
    · exact hpch
    · exact hpr
    · exact hfo

theorem crawlInv_reachable {N : Nat} {probe : String → UrlOpenResult}
    {resolve : String → String} {wl : List String} {s : CrawlState N}
    (h : CrawlReachable N probe resolve wl s) : CrawlInv N probe s := by
  induction h with
  | refl => exact crawlInv_init N probe wl
  | tail _ hbc ih => exact crawlInv_step ih hbc

theorem no_crash_of_ok {N : Nat} {probe : String → UrlOpenResult}
    {resolve : String → String} {wl : List String} {s : CrawlState N}
    (hok : ∀ u, ∃ st, check_url (probe u) = Except.ok st)
    (h : CrawlReachable N probe resolve wl s) :
    ∀ i, s.ws i ≠ WState.crashed := by
  induction h with
  | refl =>
    intro i hcontra
    exact absurd hcontra (by simp [initState])
  | tail _ hbc ih =>
    intro i hcontra
    cases hbc with
    | dequeueItem j p rest hw hq =>
      dsimp only at hcontra
      by_cases hij : i = j
      · subst hij
        rw [Function.update_same] at hcontra
        simp at hcontra
      · rw [Function.update_noteq hij] at hcontra
        exact ih i hcontra
    | dequeueSentinel j rest hw hq =>
      dsimp only at hcontra
      by_cases hij : i = j
      · subst hij
        rw [Function.update_same] at hcontra
        simp at hcontra
      · rw [Function.update_noteq hij] at hcontra
        exact ih i hcontra
    | dupSkip j u hw hc =>
      dsimp only at hcontra
      by_cases hij : i = j
      · subst hij
        rw [Function.update_same] at hcontra
        simp at hcontra
      · rw [Function.update_noteq hij] at hcontra
        exact ih i hcontra
    | markNew j u hw hc =>
      dsimp only at hcontra
      by_cases hij : i = j
      · subst hij
        rw [Function.update_same] at hcontra
        simp at hcontra
      · rw [Function.update_noteq hij] at hcontra
        exact ih i hcontra
    | probeOk j u st hw hok2 =>
      dsimp only at hcontra
      by_cases hij : i = j
      · subst hij
        rw [Function.update_same] at hcontra
        simp at hcontra
      · rw [Function.update_noteq hij] at hcontra
        exact ih i hcontra
    | probeRaise j u e hw herr =>
      obtain ⟨st, hst⟩ := hok u
      rw [herr] at hst
      simp at hst
    | sleepDone j u hw =>
      dsimp only at hcontra
      by_cases hij : i = j
      · subst hij
        rw [Function.update_same] at hcontra
        simp at hcontra
      · rw [Function.update_noteq hij] at hcontra
        exact ih i hcontra
    | joinDone hc hu =>
      dsimp only at hcontra
      exact ih i hcontra
    | postMarker k hc =>
      dsimp only at hcontra
      exact ih i hcontra
    | finish hc hall =>
      dsimp only at hcontra
      exact ih i hcontra

theorem crawlMeasure_decreases {N : Nat} {probe : String → UrlOpenResult}
    {resolve : String → String} {s t : CrawlState N}
    (hst : CrawlStep N probe resolve s t) : crawlMeasure t < crawlMeasure s := by
  cases hst with
  | dequeueItem i p rest hw hq =>
    have hwsum := wSum_update s.ws i (WState.checking (resolve p))
    rw [hw] at hwsum
    simp [wWeight] at hwsum
    unfold crawlMeasure
    dsimp only
    rw [hq]
    simp only [qWeightSum, qWeight]
    omega
  | dequeueSentinel i rest hw hq =>
    have hwsum := wSum_update s.ws i WState.exited
    rw [hw] at hwsum
    simp [wWeight] at hwsum
    unfold crawlMeasure
    dsimp only
    rw [hq]
    simp only [qWeightSum, qWeight]
    omega
  | dupSkip i u hw hc =>
    have hwsum := wSum_update s.ws i WState.ready
    rw [hw] at hwsum
    simp [wWeight] at hwsum
    unfold crawlMeasure
    dsimp only
    omega
  | markNew i u hw hc =>
    have hwsum := wSum_update s.ws i (WState.probing u)
    rw [hw] at hwsum
    simp [wWeight] at hwsum
    unfold crawlMeasure
    dsimp only
    omega
  | probeOk i u st hw hok =>
    have hwsum := wSum_update s.ws i (WState.sleeping u)
    rw [hw] at hwsum
    simp [wWeight] at hwsum
    unfold crawlMeasure
    dsimp only
    omega
  | probeRaise i u e hw herr =>
    have hwsum := wSum_update s.ws i WState.crashed
    rw [hw] at hwsum
    simp [wWeight] at hwsum
    unfold crawlMeasure
    dsimp only
    omega
  | sleepDone i u hw =>
    have hwsum := wSum_update s.ws i WState.ready
    rw [hw] at hwsum
    simp [wWeight] at hwsum
    unfold crawlMeasure
    dsimp only
    omega
  | joinDone hc hu =>
    unfold crawlMeasure
    dsimp only
    rw [hc]
    simp [cWeight]
  | postMarker k hc =>
    unfold crawlMeasure
    dsimp only
    rw [hc, qWeightSum_append]
    simp [qWeightSum, qWeight, cWeight]
    omega
  | finish hc hall =>
    unfold crawlMeasure
    dsimp only
    rw [hc]
    simp [cWeight]

theorem crawl_stuck_done {N : Nat} {probe : String → UrlOpenResult}
    {resolve : String → String} {s : CrawlState N} (hN : 0 < N)
    (hinv : CrawlInv N probe s)
    (hnc : ∀ i, s.ws i ≠ WState.crashed)
    (hstuck : ∀ t, ¬ CrawlStep N probe resolve s t) :
    s.coord = CPhase.finished ∧ ∀ i, s.ws i = WState.exited := by
  have hre : ∀ i, s.ws i = WState.ready ∨ s.ws i = WState.exited := by
    intro i
    cases hwi : s.ws i with
    | ready => exact Or.inl rfl
    | exited => exact Or.inr rfl
    | checking u =>
      by_cases hmem : u ∈ s.checked
      · exact absurd (CrawlStep.dupSkip s i u hwi hmem) (hstuck _)
      · exact absurd (CrawlStep.markNew s i u hwi hmem) (hstuck _)
    | probing u =>
      cases hcu : check_url (probe u) with
      | ok st => exact absurd (CrawlStep.probeOk s i u st hwi hcu) (hstuck _)
      | error e => exact absurd (CrawlStep.probeRaise s i u e hwi hcu) (hstuck _)
    | sleeping u => exact absurd (CrawlStep.sleepDone s i u hwi) (hstuck _)
    | crashed => exact absurd hwi (hnc i)
  cases hcoord : s.coord with
  | joining =>
    exfalso
    have hex0 : exitedCount s.ws = 0 := hinv.joinExit hcoord
    have hallready : ∀ i, s.ws i = WState.ready := by
      intro i
      rcases hre i with h | h
      · exact h
      · exfalso
        have h1 := exitedW_le_exitedCount s.ws i
        rw [h] at h1
        have h2 : 1 ≤ exitedCount s.ws := h1
        omega
    cases hq : s.queue with
    | nil =>
      have h0 : s.unfinished = 0 := by
        have hbusy0 : busySum s.ws = 0 := by
          unfold busySum
          refine Finset.sum_eq_zero ?_
          intro i _
          rw [hallready i]
          rfl
        have hc := hinv.count
        rw [hq] at hc
        simp [itemCount, sentCount] at hc
        omega
      exact hstuck _ (CrawlStep.joinDone s hcoord h0)
    | cons x rest =>
      cases x with
      | item p =>
        exact hstuck _ (CrawlStep.dequeueItem s ⟨0, hN⟩ p rest (hallready _) hq)
      | sentinel =>
        have h0 := hinv.joinSent hcoord
        rw [hq] at h0
        simp [sentCount] at h0
  | posting k =>
    cases k with
    | succ m => exact absurd (CrawlStep.postMarker s m hcoord) (hstuck _)
    | zero =>
      have hallex : ∀ i, s.ws i = WState.exited := by
        by_contra hne
        push_neg at hne
        obtain ⟨i, hi⟩ := hne
        have hiready : s.ws i = WState.ready := by
          rcases hre i with h | h
          · exact h
          · exact absurd h hi
        have hit0 : itemCount s.queue = 0 := hinv.postItems (by rw [hcoord] ; simp)
        cases hq : s.queue with
        | nil =>
          have hcnt := hinv.postCount 0 hcoord
          rw [hq] at hcnt
          simp [sentCount] at hcnt
          exact hi (all_exited_of_exitedCount s.ws (by omega) i)
        | cons x rest =>
          cases x with
          | item p =>
            rw [hq] at hit0
            simp [itemCount] at hit0
          | sentinel =>
            exact absurd (CrawlStep.dequeueSentinel s i rest hiready hq) (hstuck _)
      exact absurd (CrawlStep.finish s hcoord hallex) (hstuck _)
  | finished => exact ⟨rfl, hinv.finAll hcoord⟩

/-! ## Claim theorems -/

/-- **C4 counterexample.** The claim says `check_url` returns the
unreachable signal on a malformed-URL error and never raises past its
boundary.  But `urllib` signals a malformed URL by raising `ValueError`
(`unknown url type` / `http.client.InvalidURL`), and lines 39-42 catch only
`HTTPError` and `URLError`, so the exception propagates out of `check_url`
instead of becoming `None`. -/
theorem check_url_raises_on_malformed :
    check_url UrlOpenResult.valueError = Except.error PyExc.valueError ∧
    check_url UrlOpenResult.valueError ≠ Except.ok none :=
  ⟨rfl, by simp [check_url]⟩

/-- **C4 (amended).** `check_url` returns the numeric status code on any
completed HTTP exchange (a response, or an `HTTPError` carrying a 4xx/5xx
code) and returns `None` on any `URLError` (connection failure, DNS
failure, timeout); for every outcome other than an uncaught `ValueError`
it returns normally.  A malformed-URL `ValueError` is the one exception
that escapes. -/
theorem check_url_error_mapping (o : UrlOpenResult)
    (h : o ≠ UrlOpenResult.valueError) :
    (∀ c, check_url (UrlOpenResult.response c) = Except.ok (some c)) ∧
    (∀ c, check_url (UrlOpenResult.httpError c) = Except.ok (some c)) ∧
    check_url UrlOpenResult.urlError = Except.ok none ∧
    ∃ r, check_url o = Except.ok r := by
  refine ⟨fun c => rfl, fun c => rfl, rfl, ?_⟩
  cases o with
  | response c => exact ⟨some c, rfl⟩
  | httpError c => exact ⟨some c, rfl⟩
  | urlError => exact ⟨none, rfl⟩
  | valueError => exact absurd rfl h

/-- Witness for `check_url_error_mapping` at the `URLError` outcome. -/
theorem check_url_error_mapping_witness :
    (∀ c, check_url (UrlOpenResult.response c) = Except.ok (some c)) ∧
    (∀ c, check_url (UrlOpenResult.httpError c) = Except.ok (some c)) ∧
    check_url UrlOpenResult.urlError = Except.ok none ∧
    ∃ r, check_url UrlOpenResult.urlError = Except.ok r :=
  check_url_error_mapping UrlOpenResult.urlError (by decide)

/-- **C6.** Wordlist expansion: the seeding loop of `crawl` enqueues, for
each of the `n` wordlist entries, the bare variant and the trailing-slash
variant — exactly `2n` candidates — and in the initial crawl state (before
any worker step) the queue holds exactly these candidates, all workers are
at the top of their loops and the coordinator has not yet passed
`queue.join()`. -/
theorem wordlist_expansion_doubles (N : Nat) (wl : List String) :
    (expandWordlist wl).length = 2 * wl.length ∧
    (∀ w, w ∈ wl → w ∈ expandWordlist wl ∧ (w ++ "/") ∈ expandWordlist wl) ∧
    (initState N wl).queue = (expandWordlist wl).map QItem.item ∧
    (∀ i, (initState N wl).ws i = WState.ready) ∧
    (initState N wl).coord = CPhase.joining :=
  ⟨expandWordlist_length wl, fun _ hw => expandWordlist_mem hw, rfl,
   fun _ => rfl, rfl⟩

/-- Witness for `wordlist_expansion_doubles` on the one-word list. -/
theorem wordlist_expansion_doubles_witness :
    "admin" ∈ expandWordlist ["admin"] ∧
    ("admin" ++ "/") ∈ expandWordlist ["admin"] ∧
    (expandWordlist ["admin"]).length = 2 * (["admin"] : List String).length := by
  obtain ⟨h1, h2, -, -, -⟩ := wordlist_expansion_doubles 2 ["admin"]
  obtain ⟨ha, hb⟩ := h2 "admin" (by simp)
  exact ⟨ha, hb, h1⟩

/-- **C7 counterexample.** `"httpx.example"` carries neither an `http://`
nor an `https://` scheme prefix, yet the crawler uses it unchanged instead
of assuming a scheme, because line 13 tests only `startswith('http')`. -/
theorem normalizeBaseUrl_claim_cex :
    pyStartsWith "httpx.example" "http://" = false ∧
    pyStartsWith "httpx.example" "https://" = false ∧
    normalizeBaseUrl "httpx.example" = "httpx.example" ∧
    normalizeBaseUrl "httpx.example" ≠ "http://" ++ "httpx.example" :=
  ⟨by decide, by decide, by decide, by decide⟩

/-- **C7 (amended).** The prefix test of line 13 is `startswith('http')`:
a base URL beginning with the four characters `http` (with or without a
real scheme, e.g. also `httpx.example`) is used unchanged, and `http://`
is prepended exactly when the URL does not begin with `http`. -/
theorem normalizeBaseUrl_startswith_http (u : String) :
    (pyStartsWith u "http" = true → normalizeBaseUrl u = u) ∧
    (pyStartsWith u "http" = false → normalizeBaseUrl u = "http://" ++ u) := by
  constructor
  · intro h
    simp [normalizeBaseUrl, h]
  · intro h
    simp [normalizeBaseUrl, h]

/-- Witness for `normalizeBaseUrl_startswith_http` on both branches. -/
theorem normalizeBaseUrl_startswith_http_witness :
    normalizeBaseUrl "example.com" = "http://" ++ "example.com" ∧
    normalizeBaseUrl "https://example.com" = "https://example.com" :=
  ⟨(normalizeBaseUrl_startswith_http "example.com").2 (by decide),
   (normalizeBaseUrl_startswith_http "https://example.com").1 (by decide)⟩

/-- **C8.** Startup failure handling: with no command-line arguments `main`
prints usage and exits with status 1 (non-zero); when the wordlist file
cannot be read the error is reported and the process exits with status 1
without constructing the crawler (before any probing); a run that reaches
`crawl()` falls through `main` and the process exits with status 0,
independently of how many findings there were. -/
theorem main_exit_codes (argvTail : List String) (wordlistArg : Option String)
    (readFile : String → Except Unit (List String)) :
    mainModel [] wordlistArg readFile = MainResult.usageExit 1 ∧
    (∀ p, argvTail ≠ [] → wordlistArg = some p → readFile p = Except.error () →
      mainModel argvTail wordlistArg readFile = MainResult.wordlistReadExit 1) ∧
    (argvTail ≠ [] → wordlistArg = none →
      mainModel argvTail wordlistArg readFile = MainResult.completed none 0) ∧
    (∀ p lines, argvTail ≠ [] → wordlistArg = some p →
      readFile p = Except.ok lines →
      mainModel argvTail wordlistArg readFile =
        MainResult.completed (some (processWordlistLines lines)) 0) ∧
    (1 : Nat) ≠ 0 := by
  refine ⟨rfl, ?_, ?_, ?_, by decide⟩
  · intro p hne hw hr
    cases argvTail with
    | nil => exact absurd rfl hne
    | cons a t => simp [mainModel, hw, hr]
  · intro hne hw
    cases argvTail with
    | nil => exact absurd rfl hne
    | cons a t => simp [mainModel, hw]
  · intro p lines hne hw hr
    cases argvTail with
    | nil => exact absurd rfl hne
    | cons a t => simp [mainModel, hw, hr]

/-- Witness for `main_exit_codes` on concrete command lines. -/
theorem main_exit_codes_witness :
    mainModel [] (some "wl.txt") (fun _ => Except.error ()) =
      MainResult.usageExit 1 ∧
    mainModel ["http://x"] (some "wl.txt") (fun _ => Except.error ()) =
      MainResult.wordlistReadExit 1 ∧
    mainModel ["http://x"] none (fun _ => Except.error ()) =
      MainResult.completed none 0 ∧
    mainModel ["http://x"] (some "wl.txt") (fun _ => Except.ok ["admin"]) =
      MainResult.completed (some (processWordlistLines ["admin"])) 0 :=
  ⟨(main_exit_codes [] (some "wl.txt") (fun _ => Except.error ())).1,
   (main_exit_codes ["http://x"] (some "wl.txt") (fun _ => Except.error ())).2.1
     "wl.txt" (by simp) rfl rfl,
   (main_exit_codes ["http://x"] none (fun _ => Except.error ())).2.2.1
     (by simp) rfl,
   (main_exit_codes ["http://x"] (some "wl.txt")
     (fun _ => Except.ok ["admin"])).2.2.2.1 "wl.txt" ["admin"] (by simp) rfl rfl⟩

/-- **C9.** The output file is written only when at least one finding
exists: with an empty `found_dirs` the summary stage of `crawl` neither
invokes `save_results` nor attempts any file write — even when `--output`
was supplied; conversely, any attempted write implies a non-empty
`found_dirs` and that its path is the configured output path. -/
theorem output_only_when_found (found : List String) (output : Option String) :
    crawlSummary [] output = (false, none) ∧
    (∀ w, (crawlSummary found output).2 = some w →
      found ≠ [] ∧ output = some w.1) := by
  constructor
  · rfl
  · intro w hw
    by_cases hf : found.isEmpty
    · exfalso
      have h0 : crawlSummary found output = (false, none) := by
        unfold crawlSummary
        rw [if_pos hf]
      rw [h0] at hw
      simp at hw
    · have h2 : (crawlSummary found output).2 = save_results output found := by
        unfold crawlSummary
        rw [if_neg hf]
      rw [h2] at hw
      refine ⟨?_, ?_⟩
      · intro h
        subst h
        simp at hf
      · cases houtput : output with
        | none =>
          rw [houtput] at hw
          simp [save_results] at hw
        | some p =>
          rw [houtput] at hw
          unfold save_results at hw
          injection hw with hw'
          subst hw'
          rfl

/-- Witness for `output_only_when_found`: a run with one finding writes to
the configured path, and an empty run writes nothing. -/
theorem output_only_when_found_witness :
    crawlSummary [] (some "out.txt") = (false, none) ∧
    (["http://x/admin"] : List String) ≠ [] :=
  ⟨(output_only_when_found ["http://x/admin"] (some "out.txt")).1,
   ((output_only_when_found ["http://x/admin"] (some "out.txt")).2
     ("out.txt", "Found directories:\nhttp://x/admin") (by decide)).1⟩

theorem processWordlistLines_blank : ∀ (lines : List String),
    (∀ l, l ∈ lines → pyStrip l = "") → processWordlistLines lines = []
  | [], _ => rfl
  | a :: t, h => by
    have ha := h a (List.mem_cons_self a t)
    have ht := processWordlistLines_blank t
      (fun l hl => h l (List.mem_cons_of_mem a hl))
    unfold processWordlistLines at ht ⊢
    simp [List.filterMap_cons, ha, ht]

/-- **C10.** An empty custom wordlist — e.g. a readable wordlist file
containing only blank lines, which line 157 turns into the empty list —
makes the crawler silently fall back to the built-in default wordlist:
`wordlist or self.default_wordlist()` treats the falsy empty list exactly
like `None`, and the default list is non-empty. -/
theorem empty_wordlist_falls_back (lines : List String)
    (hblank : ∀ l, l ∈ lines → pyStrip l = "") :
    processWordlistLines lines = [] ∧
    initWordlist (some (processWordlistLines lines)) = default_wordlist ∧
    initWordlist (some []) = initWordlist none ∧
    default_wordlist ≠ [] := by
  have hempty := processWordlistLines_blank lines hblank
  refine ⟨hempty, ?_, rfl, by decide⟩
  rw [hempty]
  rfl

/-- Witness for `empty_wordlist_falls_back` on a blank-lines-only file. -/
theorem empty_wordlist_falls_back_witness :
    processWordlistLines ["", "   ", "\t"] = [] ∧
    initWordlist (some (processWordlistLines ["", "   ", "\t"])) =
      default_wordlist :=
  ⟨(empty_wordlist_falls_back ["", "   ", "\t"] (by decide)).1,
   (empty_wordlist_falls_back ["", "   ", "\t"] (by decide)).2.1⟩

/-- **C5.** Per-item worker behaviour (lines 46-71): a dequeued candidate
whose resolved address is a duplicate is only marked processed
(`task_done`) and the worker continues — no probe and no delay; a new
address is probed, recorded exactly when the status is 200, and then the
configured delay is slept *before* `task_done` — and the sleep happens
regardless of the probe's outcome. -/
theorem worker_item_processing (resolve : String → String)
    (probe : String → Option Nat) (checked found : List String) (path : String) :
    (resolve path ∈ checked →
      workerIteration resolve probe checked found (some path) =
        (checked, found, [WAction.taskDone]) ∧
      WAction.sleepDelay ∉
        (workerIteration resolve probe checked found (some path)).2.2) ∧
    (resolve path ∉ checked →
      (workerIteration resolve probe checked found (some path)).2.2 =
        WAction.probeAct (resolve path) (probe (resolve path)) ::
          (if probe (resolve path) = some 200
            then [WAction.record (resolve path)] else []) ++
            [WAction.sleepDelay, WAction.taskDone] ∧
      WAction.sleepDelay ∈
        (workerIteration resolve probe checked found (some path)).2.2) := by
  constructor
  · intro hmem
    constructor
    · simp [workerIteration, hmem]
    · simp [workerIteration, hmem]
  · intro hmem
    constructor
    · simp [workerIteration, hmem]
    · by_cases h200 : probe (resolve path) = some 200 <;>
        simp [workerIteration, hmem, h200]

/-- Witness for `worker_item_processing`: a duplicate item is only marked
done, and a new item whose probe returns 404 is still slept on. -/
theorem worker_item_processing_witness :
    workerIteration (fun p => p) (fun _ => some 404) ["admin"] [] (some "admin") =
      (["admin"], [], [WAction.taskDone]) ∧
    WAction.sleepDelay ∈
      (workerIteration (fun p => p) (fun _ => some 404) [] [] (some "admin")).2.2 :=
  ⟨((worker_item_processing (fun p => p) (fun _ => some 404) ["admin"] []
      "admin").1 (by decide)).1,
   ((worker_item_processing (fun p => p) (fun _ => some 404) [] []
      "admin").2 (by decide)).2⟩

/-- **C2.** Dedup-ledger atomicity and idempotence: the duplicate check and
the insertion of lines 55-59 form one critical section under the single
lock — one atomic `CrawlStep` in the model, whose pure content is
`checkAndMark`.  Two passes over the same address yield "new" (`true`) then
"duplicate" (`false`), never "new" twice; and in every reachable crawl
state, `checked_urls` contains no duplicates, no address has been handed to
the probe function twice, and no two workers are ever probing the same
address concurrently. -/
theorem dedup_checkAndMark (u : String) (cs : List String)
    {N : Nat} {probe : String → UrlOpenResult} {resolve : String → String}
    {wl : List String} (s : CrawlState N)
    (h : CrawlReachable N probe resolve wl s) :
    ((checkAndMark u cs).1 = true ↔ u ∉ cs) ∧
    (checkAndMark u (checkAndMark u cs).2).1 = false ∧
    s.checked.Nodup ∧ s.probes.Nodup ∧
    (∀ i v, s.ws i = WState.probing v →
      ∀ j, j ≠ i → s.ws j ≠ WState.probing v) := by
  have hinv := crawlInv_reachable h
  refine ⟨?_, ?_, hinv.checkedNodup, hinv.probesNodup, ?_⟩
  · by_cases hm : u ∈ cs <;> simp [checkAndMark, hm]
  · by_cases hm : u ∈ cs
    · simp [checkAndMark, hm]
    · simp [checkAndMark, hm]
  · intro i v hv j hji
    exact (hinv.probingInv i v hv).2.2 j hji

/-- Witness for `dedup_checkAndMark` at a concrete address and the initial
state of a one-worker crawl. -/
theorem dedup_checkAndMark_witness :
    ((checkAndMark "http://x/admin" []).1 = true ↔
      "http://x/admin" ∉ ([] : List String)) ∧
    (checkAndMark "http://x/admin" (checkAndMark "http://x/admin" []).2).1 =
      false := by
  have hreach : CrawlReachable 1 (fun _ => UrlOpenResult.urlError) (fun p => p) []
      (initState 1 []) := Relation.ReflTransGen.refl
  have h := dedup_checkAndMark "http://x/admin" [] (initState 1 []) hreach
  exact ⟨h.1, h.2.1⟩

/-- **C3.** In every reachable crawl state, `found_dirs` contains only
addresses whose `check_url` probe returned status exactly 200 (lines
62-64: `status = self.check_url(full_url)`, appended only under
`status == 200`); an address whose probe returned any other status —
including other 2xx/3xx/4xx such as 404 — or the unreachable signal `None`
is never appended. -/
theorem found_dirs_only_200 {N : Nat} {probe : String → UrlOpenResult}
    {resolve : String → String} {wl : List String} (s : CrawlState N)
    (h : CrawlReachable N probe resolve wl s) :
    ∀ u, u ∈ s.found → check_url (probe u) = Except.ok (some 200) :=
  (crawlInv_reachable h).foundOk

/-- Witness for `found_dirs_only_200`: an explicit three-step run of a
one-worker crawl that dequeues `admin`, marks it new and probes it with a
200 response, reaching a state whose `found_dirs` contains the resolved
address. -/
theorem found_dirs_only_200_witness :
    check_url ((fun _ : String => UrlOpenResult.response 200)
      ("http://x/" ++ "admin")) = Except.ok (some 200) := by
  have h0 : Relation.ReflTransGen
      (CrawlStep 1 (fun _ : String => UrlOpenResult.response 200)
        (fun p => "http://x/" ++ p))
      (initState 1 ["admin"]) (initState 1 ["admin"]) := Relation.ReflTransGen.refl
  have h1 := Relation.ReflTransGen.tail h0
    (CrawlStep.dequeueItem (initState 1 ["admin"]) ⟨0, Nat.one_pos⟩ "admin"
      [QItem.item ("admin" ++ "/")] rfl rfl)
  have h2 := Relation.ReflTransGen.tail h1
    (CrawlStep.markNew _ ⟨0, Nat.one_pos⟩ ("http://x/" ++ "admin")
      (by simp [initState, Function.update_same]) (by simp [initState]))
  have h3 := Relation.ReflTransGen.tail h2
    (CrawlStep.probeOk _ ⟨0, Nat.one_pos⟩ ("http://x/" ++ "admin") (some 200)
      (by simp [initState, Function.update_same]) rfl)
  exact found_dirs_only_200 _ h3 ("http://x/" ++ "admin") (by simp [initState])

/-- **C1 (amended: pool size at least 1, and — for the liveness half —
probes that return).** Shutdown protocol of `crawl` for every pool size
`N ≥ 1`, every candidate set and every probe behaviour, in every reachable
state of the crawl: (a) whenever a termination marker is visible in the
queue, no unprocessed candidate remains — the queue holds no candidates and
no worker is mid-processing, since `task_done` only runs after the
post-probe sleep and any recording; (b) while `k` of the `N` sentinel
`put`s remain, markers-in-queue + exited workers + `k` = `N`, and once the
coordinator is done, markers-in-queue + exited workers = `N` — so exactly
`N` markers are enqueued in total; (c) a worker has consumed exactly one
marker iff it has exited; (d) every step strictly decreases `crawlMeasure`,
so no run is infinite; and (e) provided every probe's `check_url` call
returns (no uncaught malformed-URL `ValueError`), any stuck (maximal)
state is fully terminated: the coordinator has finished, all `N` workers
have exited, and exactly `N` markers were consumed — one per worker.
Without that proviso (e.g. a schemeless base URL such as `httpx`), or for
`N = 0`, the crawl hangs in `queue.join()`; see the counterexample. -/
theorem crawl_shutdown_protocol {N : Nat} {probe : String → UrlOpenResult}
    {resolve : String → String} {wl : List String} (s : CrawlState N)
    (hN : 0 < N) (h : CrawlReachable N probe resolve wl s) :
    (QItem.sentinel ∈ s.queue → itemCount s.queue = 0 ∧ busySum s.ws = 0) ∧
    (∀ k, s.coord = CPhase.posting k →
      sentCount s.queue + exitedCount s.ws + k = N) ∧
    (s.coord = CPhase.finished → sentCount s.queue + exitedCount s.ws = N) ∧
    (∀ i, s.consumed i = exitedW (s.ws i)) ∧
    (∀ t, CrawlStep N probe resolve s t → crawlMeasure t < crawlMeasure s) ∧
    ((∀ u, ∃ st, check_url (probe u) = Except.ok st) →
      (∀ t, ¬ CrawlStep N probe resolve s t) →
      s.coord = CPhase.finished ∧ (∀ i, s.ws i = WState.exited) ∧
      (∑ i, s.consumed i) = N) := by
  have hinv := crawlInv_reachable h
  refine ⟨?_, hinv.postCount, hinv.finCount, hinv.consumedEq,
    fun t ht => crawlMeasure_decreases ht, ?_⟩
  · intro hs
    have h1 := sentCount_pos_of_mem hs
    have hnj : s.coord ≠ CPhase.joining := by
      intro hj
      have h0 := hinv.joinSent hj
      omega
    exact ⟨hinv.postItems hnj, hinv.postBusy hnj⟩
  · intro hok hstuck
    have hnc := no_crash_of_ok hok h
    obtain ⟨h1, h2⟩ := crawl_stuck_done hN hinv hnc hstuck
    refine ⟨h1, h2, ?_⟩
    have h3 : ∀ i, s.consumed i = 1 := by
      intro i
      rw [hinv.consumedEq i, h2 i]
      rfl
    calc (∑ i, s.consumed i) = ∑ _i : Fin N, 1 :=
          Finset.sum_congr rfl (fun i _ => h3 i)
      _ = N := by simp

/-- Witness for `crawl_shutdown_protocol` at the initial state of a
one-worker crawl on the empty wordlist. -/
theorem crawl_shutdown_protocol_witness :
    (initState 1 ([] : List String)).consumed ⟨0, Nat.one_pos⟩ =
      exitedW ((initState 1 ([] : List String)).ws ⟨0, Nat.one_pos⟩) := by
  have h := @crawl_shutdown_protocol 1 (fun _ => UrlOpenResult.urlError)
    (fun p => p) [] (initState 1 ([] : List String)) Nat.one_pos
    Relation.ReflTransGen.refl
  exact h.2.2.2.1 ⟨0, Nat.one_pos⟩

/-- **C1 counterexample.** Two concrete refutations of the claim as stated.
First, with pool size 1 — inside the claim's "every pool size" — and a
probe that raises (a schemeless base URL such as `httpx`, which line 13
leaves unchanged, makes every resolved URL malformed, so `check_url`
raises `ValueError` — this file's C4 analysis): the crawl reaches
`hungState`, which is stuck; the worker crashed at line 62 before
`task_done`, so it never exits and consumes no marker, the second
candidate is never processed, the task counter never reaches zero, and
the coordinator hangs in `queue.join()` forever — refuting "every one of
the N workers exits after consuming exactly one marker".  Second, with
pool size 0 (accepted by `-t 0`) and a non-empty wordlist, the initial
state itself is stuck: no worker exists to process the two enqueued
candidates and the coordinator never finishes. -/
theorem crawl_shutdown_hang_cex :
    CrawlReachable 1 (fun _ => UrlOpenResult.valueError) (fun p => p)
      ["admin"] hungState ∧
    (∀ t, ¬ CrawlStep 1 (fun _ => UrlOpenResult.valueError) (fun p => p)
      hungState t) ∧
    hungState.coord ≠ CPhase.finished ∧
    hungState.ws ⟨0, Nat.one_pos⟩ ≠ WState.exited ∧
    hungState.consumed ⟨0, Nat.one_pos⟩ = 0 ∧
    itemCount hungState.queue = 1 ∧
    CrawlReachable 0 (fun _ => UrlOpenResult.urlError) (fun p => p) ["admin"]
      (initState 0 ["admin"]) ∧
    (∀ t, ¬ CrawlStep 0 (fun _ => UrlOpenResult.urlError) (fun p => p)
      (initState 0 ["admin"]) t) ∧
    (initState 0 ["admin"]).coord ≠ CPhase.finished ∧
    itemCount (initState 0 ["admin"]).queue = 2 := by
  refine ⟨?_, ?_, by decide, by decide, rfl, by decide,
    Relation.ReflTransGen.refl, ?_, by simp [initState], by decide⟩
  · have h0 : Relation.ReflTransGen
        (CrawlStep 1 (fun _ : String => UrlOpenResult.valueError) (fun p => p))
        (initState 1 ["admin"]) (initState 1 ["admin"]) :=
      Relation.ReflTransGen.refl
    have h1 := Relation.ReflTransGen.tail h0
      (CrawlStep.dequeueItem (initState 1 ["admin"]) ⟨0, Nat.one_pos⟩ "admin"
        [QItem.item ("admin" ++ "/")] rfl rfl)
    have h2 := Relation.ReflTransGen.tail h1
      (CrawlStep.markNew _ ⟨0, Nat.one_pos⟩ "admin"
        (by simp [initState, Function.update_same]) (by simp [initState]))
    have h3 := Relation.ReflTransGen.tail h2
      (CrawlStep.probeRaise _ ⟨0, Nat.one_pos⟩ "admin" PyExc.valueError
        (by simp [initState, Function.update_same]) rfl)
    exact h3
  · intro t hstep
    cases hstep with
    | dequeueItem i p rest hw hq =>
      rw [Subsingleton.elim i ⟨0, Nat.one_pos⟩] at hw
      simp [hungState] at hw
    | dequeueSentinel i rest hw hq =>
      rw [Subsingleton.elim i ⟨0, Nat.one_pos⟩] at hw
      simp [hungState] at hw
    | dupSkip i u hw hc =>
      rw [Subsingleton.elim i ⟨0, Nat.one_pos⟩] at hw
      simp [hungState] at hw
    | markNew i u hw hc =>
      rw [Subsingleton.elim i ⟨0, Nat.one_pos⟩] at hw
      simp [hungState] at hw
    | probeOk i u st hw hok =>
      rw [Subsingleton.elim i ⟨0, Nat.one_pos⟩] at hw
      simp [hungState] at hw
    | probeRaise i u e hw herr =>
      rw [Subsingleton.elim i ⟨0, Nat.one_pos⟩] at hw
      simp [hungState] at hw
    | sleepDone i u hw =>
      rw [Subsingleton.elim i ⟨0, Nat.one_pos⟩] at hw
      simp [hungState] at hw
    | joinDone hc hu => exact absurd hu (by decide)
    | postMarker k hc => exact absurd hc (by simp [hungState])
    | finish hc hall => exact absurd hc (by simp [hungState])
  · intro t hstep
    cases hstep with
    | dequeueItem i p rest hw hq => exact i.elim0
    | dequeueSentinel i rest hw hq => exact i.elim0
    | dupSkip i u hw hc => exact i.elim0
    | markNew i u hw hc => exact i.elim0
    | probeOk i u st hw hok => exact i.elim0
    | probeRaise i u e hw herr => exact i.elim0
    | sleepDone i u hw => exact i.elim0
    | joinDone hc hu => exact absurd hu (by decide)
    | postMarker k hc => exact absurd hc (by simp [initState])
    | finish hc hall => exact absurd hc (by simp [initState])
